import Mathlib

/-!
Shallow embedding of the Store layer of `src/db.ts` (module `db`), a thin
wrapper around a browser IndexedDB database named `AppStoreDB`.

The embedding models:
  * the record type `App` (interface `App` in `db.ts`), with the payload blob
    as a list of bytes and the runtime representation of `category` as a
    string (the TypeScript union type exists only at compile time);
  * the single object store `apps` together with its auto-increment key
    generator, as the state type `AppStoreDB`;
  * the operations `addApp`, `getAllApps`, `getAppsByCategory`, `deleteApp`;
  * the schema created by `initDB`'s `upgrade` callback, as `Schema`;
  * the module-level `dbPromise` cache manipulated by `initDB` and `getDB`.

IndexedDB semantics used by the embedding: `db.add` with an auto-increment
key generator assigns the current generator value (starting at 1) as the key,
stores the record under it and returns it; `getAllFromIndex` returns the
records sorted ascending by index key, ties broken by primary key;
`delete` on an absent key succeeds and changes nothing; deletes do not
rewind the key generator.  The upload form never supplies an `id`, so the
caller-facing record type carries none.
-/

/-- The record type stored in the `apps` object store (interface `App` in
`db.ts`, without the store-assigned `id`).  The blob `file` is a byte list;
`category` is a string at runtime. -/
structure App where
  name : String
  description : String
  file : List Nat
  fileName : String
  fileType : String
  fileSize : Nat
  uploadDate : String
  ownerId : String
  category : String
  icon : Option (List Nat)
  iconType : Option String
deriving DecidableEq

/-- The fixed category enumeration (`CATEGORIES` in `db.ts`); the TypeScript
union type for `App.category` admits exactly these strings. -/
def CATEGORIES : List String :=
  ["Games", "Tools", "Music", "Images", "Videos", "Other"]

/-- A record as persisted: the record together with the primary key `id`
assigned by the auto-increment key generator. -/
structure StoredApp where
  id : Nat
  app : App
deriving DecidableEq

/-- The state of the `apps` object store: persisted records in insertion
order, plus the auto-increment key generator (next key to assign). -/
structure AppStoreDB where
  apps : List StoredApp
  nextId : Nat
deriving DecidableEq

/-- The store as created fresh by `initDB`'s `upgrade` callback: empty, with
the IndexedDB key generator starting at 1. -/
def initialDB : AppStoreDB := { apps := [], nextId := 1 }

/-- `addApp` (`db.ts` lines 68-79): spreads the caller's record, overwrites
`uploadDate` with the current time `now`, inserts via `db.add` (which assigns
the next auto-increment key) and returns the assigned key. -/
def addApp (db : AppStoreDB) (app : App) (now : String) : AppStoreDB × Nat :=
  ({ apps := db.apps ++ [⟨db.nextId, { app with uploadDate := now }⟩],
     nextId := db.nextId + 1 },
   db.nextId)

/-- Index-order comparison for the `uploadDate` index: records are returned
sorted ascending by index key (`uploadDate`, compared lexicographically as
IndexedDB compares string keys — code-point order on the character list),
ties broken by primary key. -/
def uploadDateLE (a b : StoredApp) : Bool :=
  decide (a.app.uploadDate.data < b.app.uploadDate.data) ||
    (a.app.uploadDate.data == b.app.uploadDate.data && decide (a.id ≤ b.id))

/-- Primary-key comparison, the tie order within one key of the `category`
index (all records returned by an equality query share the index key). -/
def idLE (a b : StoredApp) : Bool :=
  decide (a.id ≤ b.id)

/-- `getAllApps` (`db.ts` lines 81-89): `getAllFromIndex('apps',
'uploadDate')` returns every record, sorted by the `uploadDate` index. -/
def getAllApps (db : AppStoreDB) : List StoredApp :=
  db.apps.mergeSort uploadDateLE

/-- `getAppsByCategory` (`db.ts` lines 91-99): `getAllFromIndex('apps',
'category', category)` returns the records whose `category` equals the
argument, in index order (here: primary-key order, the keys being equal).
No validation of the argument is performed. -/
def getAppsByCategory (db : AppStoreDB) (category : String) : List StoredApp :=
  (db.apps.filter (fun s => s.app.category == category)).mergeSort idLE

/-- `deleteApp` (`db.ts` lines 101-109): `db.delete('apps', id)` removes the
record with primary key `id` when present and succeeds silently otherwise;
the key generator is unaffected. -/
def deleteApp (db : AppStoreDB) (id : Nat) : AppStoreDB :=
  { db with apps := db.apps.filter (fun s => !(s.id == id)) }

/-- Result type of the fallible wrappers.  In `db.ts` every operation only
rethrows errors coming from the IndexedDB engine itself; the operations
contain no validation path of their own, so absent an engine failure they
always resolve.  The error payload is the human-readable message. -/
abbrev StorageResult (α : Type) : Type := Except String α

/-- `getAppsByCategory` as the caller observes it: the function body has no
check on `category` whatsoever (`db.ts` lines 91-99), so for any argument it
resolves with the index query result and never rejects of its own accord. -/
def getAppsByCategoryE (db : AppStoreDB) (category : String) :
    StorageResult (List StoredApp) :=
  Except.ok (getAppsByCategory db category)

/-- `deleteApp` as the caller observes it: no existence check is made
(`db.ts` lines 101-109), so for any `id` it resolves. -/
def deleteAppE (db : AppStoreDB) (id : Nat) : StorageResult AppStoreDB :=
  Except.ok (deleteApp db id)

/-- A trace step against the store: an `addApp` call (with the clock value
stamped at that moment) or a `deleteApp` call. -/
inductive Op
  | add : App → String → Op
  | delete : Nat → Op
deriving DecidableEq

/-- Apply one trace step to the store state. -/
def applyOp (db : AppStoreDB) : Op → AppStoreDB
  | Op.add a now => (addApp db a now).1
  | Op.delete id => deleteApp db id

/-- Run a trace of operations from a starting state. -/
def runOps (db : AppStoreDB) (ops : List Op) : AppStoreDB :=
  ops.foldl applyOp db

/-- Run a sequence of `addApp` calls, collecting the identifiers the store
assigns, in call order. -/
def runAdds (db : AppStoreDB) (l : List (App × String)) : AppStoreDB × List Nat :=
  match l with
  | [] => (db, [])
  | (a, now) :: rest =>
      let res := addApp db a now
      let tail := runAdds res.1 rest
      (tail.1, res.2 :: tail.2)

/-- Schema of one IndexedDB object store: its name, primary key path,
auto-increment flag, and the names of its secondary indexes in creation
order. -/
structure ObjectStoreSchema where
  name : String
  keyPath : String
  autoIncrement : Bool
  indexes : List String
deriving DecidableEq

/-- Schema of the whole database: its object stores. -/
structure Schema where
  objectStores : List ObjectStoreSchema
deriving DecidableEq

/-- The `upgrade` callback of `initDB` (`db.ts` lines 28-43): if no `apps`
object store exists, create it with key path `id`, auto-increment, and
indexes `uploadDate`, `ownerId`, `category`; then, when upgrading from a
version before 5 and `apps` exists, add the `category` index to `apps` if it
is missing. -/
def upgrade (s : Schema) (oldVersion : Nat) : Schema :=
  let s1 :=
    if s.objectStores.any (fun o => o.name == "apps") then s
    else { objectStores := s.objectStores ++
            [{ name := "apps", keyPath := "id", autoIncrement := true,
               indexes := ["uploadDate", "ownerId", "category"] }] }
  if oldVersion < 5 ∧ s1.objectStores.any (fun o => o.name == "apps") then
    { objectStores := s1.objectStores.map (fun o =>
        if o.name == "apps" ∧ ¬ (o.indexes.contains "category") then
          { o with indexes := o.indexes ++ ["category"] }
        else o) }
  else s1

/-- The database schema before any install: no object stores. -/
def emptySchema : Schema := { objectStores := [] }

/-- The secondary indexes of the `apps` object store of a schema. -/
def Schema.appsIndexes (s : Schema) : List String :=
  match s.objectStores.find? (fun o => o.name == "apps") with
  | some o => o.indexes
  | none => []

/-- A settled outcome of `openDB`: either a live database handle or a
rejection carrying the error message.  The handle type is abstract — the
caching logic of `db.ts` never inspects it. -/
inductive OpenOutcome (H : Type)
  | ok : H → OpenOutcome H
  | err : String → OpenOutcome H
deriving DecidableEq

/-- `initDB` (`db.ts` lines 25-56) as a transition on the module-level
`dbPromise` cache: when the cache is empty, `openDB` is invoked and its
settled outcome `openResult` is cached and returned; otherwise the cached
outcome is returned untouched and `openDB` is not invoked. -/
def initDB {H : Type} (cache : Option (OpenOutcome H))
    (openResult : OpenOutcome H) : Option (OpenOutcome H) × OpenOutcome H :=
  match cache with
  | none => (some openResult, openResult)
  | some r => (some r, r)

/-- `getDB` (`db.ts` lines 58-66): awaits `initDB`; on failure it resets
`dbPromise` to `null` and rethrows, on success it passes the handle
through. -/
def getDB {H : Type} (cache : Option (OpenOutcome H))
    (openResult : OpenOutcome H) : Option (OpenOutcome H) × OpenOutcome H :=
  match initDB cache openResult with
  | (c, OpenOutcome.ok h) => (c, OpenOutcome.ok h)
  | (_, OpenOutcome.err e) => (none, OpenOutcome.err e)

/-- A concrete sample record, for evaluating the theorems below. -/
def sampleApp : App :=
  { name := "Calculator", description := "demo", file := [1, 2, 3],
    fileName := "calc.html", fileType := "text/html", fileSize := 3,
    uploadDate := "2024-01-01T00:00:00.000Z", ownerId := "user1",
    category := "Tools", icon := none, iconType := none }

/-- A second concrete sample record. -/
def sampleApp2 : App := { sampleApp with name := "Snake", category := "Games" }

/-- A concrete store state holding the two sample records. -/
def sampleDB : AppStoreDB :=
  (addApp (addApp initialDB sampleApp "2024-01-01T00:00:00.000Z").1
    sampleApp2 "2024-01-02T00:00:00.000Z").1

theorem uploadDateLE_total (a b : StoredApp) :
    (uploadDateLE a b || uploadDateLE b a) = true := by
  simp only [uploadDateLE, Bool.or_eq_true, decide_eq_true_eq, Bool.and_eq_true,
    beq_iff_eq]
  rcases lt_trichotomy a.app.uploadDate.data b.app.uploadDate.data with h | h | h
  · exact Or.inl (Or.inl h)
  · rcases Nat.le_total a.id b.id with hid | hid
    · exact Or.inl (Or.inr ⟨h, hid⟩)
    · exact Or.inr (Or.inr ⟨h.symm, hid⟩)
  · exact Or.inr (Or.inl h)

theorem uploadDateLE_trans (a b c : StoredApp) :
    uploadDateLE a b = true → uploadDateLE b c = true →
    uploadDateLE a c = true := by
  simp only [uploadDateLE, Bool.or_eq_true, decide_eq_true_eq, Bool.and_eq_true,
    beq_iff_eq]
  rintro (hab | ⟨hab, hid⟩) (hbc | ⟨hbc, hid2⟩)
  · exact Or.inl (lt_trans hab hbc)
  · exact Or.inl (lt_of_lt_of_eq hab hbc)
  · exact Or.inl (lt_of_eq_of_lt hab hbc)
  · exact Or.inr ⟨hab.trans hbc, le_trans hid hid2⟩

theorem idLE_total (a b : StoredApp) : (idLE a b || idLE b a) = true := by
  simp only [idLE, Bool.or_eq_true, decide_eq_true_eq]
  omega

theorem idLE_trans (a b c : StoredApp) :
    idLE a b = true → idLE b c = true → idLE a c = true := by
  simp only [idLE, decide_eq_true_eq]
  omega

/-- C1: for every category `c` of the fixed enumeration and every store
state, `getAppsByCategory c` returns exactly those records of `getAllApps`
whose category equals `c` — the same multiset. -/
theorem getAppsByCategory_eq_filter_getAllApps
    (db : AppStoreDB) (c : String) (hc : c ∈ CATEGORIES) :
    (getAppsByCategory db c).Perm
      ((getAllApps db).filter (fun s => s.app.category == c)) := by
  have h1 : (getAppsByCategory db c).Perm
      (db.apps.filter (fun s => s.app.category == c)) :=
    List.mergeSort_perm _ _
  have h2 : (getAllApps db).Perm db.apps := List.mergeSort_perm _ _
  exact h1.trans (h2.filter (fun s => s.app.category == c)).symm

theorem getAppsByCategory_eq_filter_getAllApps_witness :
    "Games" ∈ CATEGORIES ∧
    (getAppsByCategory sampleDB "Games").Perm
      ((getAllApps sampleDB).filter (fun s => s.app.category == "Games")) :=
  ⟨by decide,
   getAppsByCategory_eq_filter_getAllApps sampleDB "Games" (by decide)⟩

/-- C2: `addApp` returns the identifier freshly assigned to the inserted
record, and the inserted record carries `uploadDate := now` (the insertion
time) whatever `uploadDate` the caller supplied. -/
theorem addApp_stamps_uploadDate_and_returns_new_id
    (db : AppStoreDB) (app : App) (now : String) :
    (addApp db app now).2 = db.nextId ∧
    (addApp db app now).1.apps =
      db.apps ++ [⟨db.nextId, { app with uploadDate := now }⟩] ∧
    ∀ d : String, addApp db { app with uploadDate := d } now =
      addApp db app now :=
  ⟨rfl, rfl, fun _ => rfl⟩

/-- C3: after `deleteApp id`, `getAllApps` contains no record with that
identifier; and deleting an absent identifier is a no-op that leaves the
store state unchanged (it does not fail). -/
theorem deleteApp_removes_id_and_is_noop_when_absent
    (db : AppStoreDB) (id : Nat) :
    (∀ s ∈ getAllApps (deleteApp db id), s.id ≠ id) ∧
    ((∀ a ∈ db.apps, a.id ≠ id) → deleteApp db id = db) := by
  constructor
  · intro s hs
    have hperm : (getAllApps (deleteApp db id)).Perm (deleteApp db id).apps :=
      List.mergeSort_perm _ _
    have hmem : s ∈ (deleteApp db id).apps := hperm.mem_iff.mp hs
    simp only [deleteApp, List.mem_filter] at hmem
    simpa using hmem.2
  · intro h
    have hfix : db.apps.filter (fun s => !(s.id == id)) = db.apps := by
      apply List.filter_eq_self.mpr
      intro a ha
      simpa using h a ha
    simp [deleteApp, hfix]

theorem deleteApp_removes_id_and_is_noop_when_absent_witness :
    (∀ s ∈ getAllApps (deleteApp sampleDB 5), s.id ≠ 5) ∧
    deleteApp sampleDB 5 = sampleDB :=
  ⟨(deleteApp_removes_id_and_is_noop_when_absent sampleDB 5).1,
   (deleteApp_removes_id_and_is_noop_when_absent sampleDB 5).2 (by decide)⟩

theorem runAdds_ids (l : List (App × String)) (db : AppStoreDB) :
    (runAdds db l).2 = List.range' db.nextId l.length := by
  induction l generalizing db with
  | nil => rfl
  | cons p rest ih =>
      obtain ⟨a, now⟩ := p
      simp only [runAdds, ih, addApp, List.length_cons, List.range'_succ]

/-- C5: the identifiers assigned by successive `addApp` calls starting from
a fresh store are pairwise distinct and strictly increasing in call order,
and the first call assigns identifier 1. -/
theorem addApp_assigned_ids_strictly_increasing (l : List (App × String)) :
    ((runAdds initialDB l).2).Pairwise (· < ·) ∧
    ((runAdds initialDB l).2).Nodup ∧
    (l = [] ∨ ((runAdds initialDB l).2).head? = some 1) := by
  have hids : (runAdds initialDB l).2 = List.range' 1 l.length :=
    runAdds_ids l initialDB
  refine ⟨?_, ?_, ?_⟩
  · rw [hids]; exact List.pairwise_lt_range' 1 l.length
  · rw [hids]; exact List.nodup_range' 1 l.length
  · cases l with
    | nil => exact Or.inl rfl
    | cons p rest =>
        right
        rw [hids]
        simp [List.range'_succ]

theorem uploadDateLE_of_le_lt {a b : StoredApp}
    (hd : a.app.uploadDate.data ≤ b.app.uploadDate.data) (hid : a.id < b.id) :
    uploadDateLE a b = true := by
  simp only [uploadDateLE, Bool.or_eq_true, decide_eq_true_eq, Bool.and_eq_true,
    beq_iff_eq]
  rcases lt_or_eq_of_le hd with h | h
  · exact Or.inl h
  · exact Or.inr ⟨h, le_of_lt hid⟩

theorem le_uploadDate_of_uploadDateLE {a b : StoredApp}
    (h : uploadDateLE a b = true) :
    a.app.uploadDate.data ≤ b.app.uploadDate.data := by
  simp only [uploadDateLE, Bool.or_eq_true, decide_eq_true_eq, Bool.and_eq_true,
    beq_iff_eq] at h
  rcases h with h | ⟨h, _⟩
  · exact le_of_lt h
  · exact le_of_eq h

/-- C6: `getAllApps` returns every persisted record, sorted ascending by
`uploadDate`; when the persisted records already have non-decreasing
timestamps and strictly increasing identifiers (as store-stamped insertion
guarantees), the returned sequence is exactly the insertion sequence. -/
theorem getAllApps_ordered_by_uploadDate
    (db : AppStoreDB)
    (h : db.apps.Pairwise
      (fun a b => a.app.uploadDate.data ≤ b.app.uploadDate.data ∧ a.id < b.id)) :
    (getAllApps db).Perm db.apps ∧
    (getAllApps db).Pairwise
      (fun a b => a.app.uploadDate.data ≤ b.app.uploadDate.data) ∧
    getAllApps db = db.apps := by
  have hperm : (getAllApps db).Perm db.apps := List.mergeSort_perm _ _
  have hsorted :=
    List.sorted_mergeSort uploadDateLE_trans uploadDateLE_total db.apps
  refine ⟨hperm, ?_, ?_⟩
  · exact hsorted.imp le_uploadDate_of_uploadDateLE
  · exact List.mergeSort_of_sorted
      (h.imp (fun hab => uploadDateLE_of_le_lt hab.1 hab.2))

theorem getAllApps_ordered_by_uploadDate_witness :
    sampleDB.apps.Pairwise
      (fun a b => a.app.uploadDate.data ≤ b.app.uploadDate.data ∧ a.id < b.id) ∧
    ((getAllApps sampleDB).Perm sampleDB.apps ∧
     (getAllApps sampleDB).Pairwise
       (fun a b => a.app.uploadDate.data ≤ b.app.uploadDate.data) ∧
     getAllApps sampleDB = sampleDB.apps) :=
  ⟨by decide, getAllApps_ordered_by_uploadDate sampleDB (by decide)⟩

/-- C7: after `addApp db r now`, the listing contains exactly one record with
the assigned identifier, and that record equals `r` in every field except the
store-assigned identifier and `uploadDate` — in particular the payload blob,
`fileType` and `fileSize` round-trip unchanged. -/
theorem addApp_roundtrip
    (db : AppStoreDB) (r : App) (now : String)
    (h : ∀ a ∈ db.apps, a.id < db.nextId) :
    (getAllApps (addApp db r now).1).filter
        (fun s => s.id == (addApp db r now).2) =
      [⟨db.nextId, { r with uploadDate := now }⟩] ∧
    (∀ s ∈ getAllApps (addApp db r now).1, s.id = (addApp db r now).2 →
      s.app.file = r.file ∧ s.app.fileType = r.fileType ∧
      s.app.fileSize = r.fileSize ∧ s.app = { r with uploadDate := now }) := by
  have hperm : (getAllApps (addApp db r now).1).Perm (addApp db r now).1.apps :=
    List.mergeSort_perm _ _
  have hfilter : ((addApp db r now).1.apps).filter
      (fun s => s.id == (addApp db r now).2) =
      [⟨db.nextId, { r with uploadDate := now }⟩] := by
    show ((db.apps ++ [(⟨db.nextId, { r with uploadDate := now }⟩ : StoredApp)]).filter
      (fun s => s.id == db.nextId)) =
      [(⟨db.nextId, { r with uploadDate := now }⟩ : StoredApp)]
    rw [List.filter_append]
    have h1 : db.apps.filter (fun s => s.id == db.nextId) = [] := by
      apply List.filter_eq_nil_iff.mpr
      intro a ha
      have := h a ha
      simp only [beq_iff_eq]
      omega
    rw [h1]
    simp
  have hfperm := hperm.filter (fun s => s.id == (addApp db r now).2)
  rw [hfilter] at hfperm
  have hfeq := List.perm_singleton.mp hfperm
  refine ⟨hfeq, ?_⟩
  intro s hs hsid
  have hmem : s ∈ (getAllApps (addApp db r now).1).filter
      (fun t => t.id == (addApp db r now).2) :=
    List.mem_filter.mpr ⟨hs, by simp [hsid]⟩
  rw [hfeq] at hmem
  have hseq : s = ⟨db.nextId, { r with uploadDate := now }⟩ := by
    simpa using hmem
  rw [hseq]
  exact ⟨rfl, rfl, rfl, rfl⟩

theorem addApp_roundtrip_witness :
    (∀ a ∈ initialDB.apps, a.id < initialDB.nextId) ∧
    ((getAllApps (addApp initialDB sampleApp "2024-03-05T00:00:00.000Z").1).filter
        (fun s => s.id == (addApp initialDB sampleApp "2024-03-05T00:00:00.000Z").2) =
      [⟨initialDB.nextId,
        { sampleApp with uploadDate := "2024-03-05T00:00:00.000Z" }⟩] ∧
     (∀ s ∈ getAllApps (addApp initialDB sampleApp "2024-03-05T00:00:00.000Z").1,
        s.id = (addApp initialDB sampleApp "2024-03-05T00:00:00.000Z").2 →
        s.app.file = sampleApp.file ∧ s.app.fileType = sampleApp.fileType ∧
        s.app.fileSize = sampleApp.fileSize ∧
        s.app = { sampleApp with uploadDate := "2024-03-05T00:00:00.000Z" })) :=
  ⟨by decide,
   addApp_roundtrip initialDB sampleApp "2024-03-05T00:00:00.000Z" (by decide)⟩

/-- C4 counterexample: `"Arcade"` is not a recognized category, yet
`getAppsByCategory` resolves with the empty list instead of failing — the
function performs no validation of its argument. -/
theorem getAppsByCategory_unrecognized_no_failure :
    "Arcade" ∉ CATEGORIES ∧
    getAppsByCategoryE sampleDB "Arcade" = Except.ok [] := by
  constructor
  · decide
  · show Except.ok
      ((sampleDB.apps.filter (fun s => s.app.category == "Arcade")).mergeSort idLE)
      = Except.ok []
    have hnil : sampleDB.apps.filter (fun s => s.app.category == "Arcade") = [] := by
      decide
    rw [hnil, List.mergeSort_nil]

/-- C4 amended: for an argument that is not a recognized category (and a
store whose records all carry recognized categories), `getAppsByCategory`
does not fail: it silently resolves with the empty sequence, the static type
annotation being the only guard. -/
theorem getAppsByCategory_unrecognized_silently_empty
    (db : AppStoreDB) (c : String) (hc : c ∉ CATEGORIES)
    (hdb : ∀ a ∈ db.apps, a.app.category ∈ CATEGORIES) :
    getAppsByCategoryE db c = Except.ok [] := by
  have hnil : db.apps.filter (fun s => s.app.category == c) = [] := by
    apply List.filter_eq_nil_iff.mpr
    intro a ha
    have hmem := hdb a ha
    simp only [beq_iff_eq]
    intro heq
    exact hc (heq ▸ hmem)
  show Except.ok ((db.apps.filter (fun s => s.app.category == c)).mergeSort idLE)
    = Except.ok []
  rw [hnil, List.mergeSort_nil]

theorem getAppsByCategory_unrecognized_silently_empty_witness :
    ("Arcade" ∉ CATEGORIES ∧
     ∀ a ∈ sampleDB.apps, a.app.category ∈ CATEGORIES) ∧
    getAppsByCategoryE sampleDB "Arcade" = Except.ok [] :=
  ⟨⟨by decide, by decide⟩,
   getAppsByCategory_unrecognized_silently_empty sampleDB "Arcade"
     (by decide) (by decide)⟩

/-- C8 counterexample: on a fresh install the `upgrade` callback creates the
`apps` store with three secondary indexes `uploadDate`, `ownerId` and
`category` — the `ownerId` index is not among the two the claim allows. -/
theorem upgrade_creates_ownerId_index :
    (upgrade emptySchema 0).appsIndexes = ["uploadDate", "ownerId", "category"] ∧
    "ownerId" ∈ (upgrade emptySchema 0).appsIndexes ∧
    "ownerId" ∉ (["uploadDate", "category"] : List String) := by
  refine ⟨by decide, by decide, by decide⟩

/-- C8 amended: after initialization at any prior schema version, the
database contains exactly one object store, `apps`, with primary key `id`
(auto-increment) and exactly three secondary indexes: `uploadDate`,
`ownerId` and `category`. -/
theorem upgrade_fresh_schema (oldVersion : Nat) :
    (upgrade emptySchema oldVersion).objectStores =
      [{ name := "apps", keyPath := "id", autoIncrement := true,
         indexes := ["uploadDate", "ownerId", "category"] }] := by
  by_cases h5 : oldVersion < 5
  · simp [upgrade, emptySchema, h5]
  · simp [upgrade, emptySchema, h5]

theorem runOps_category_closed (ops : List Op) (db : AppStoreDB)
    (hdb : ∀ s ∈ db.apps, s.app.category ∈ CATEGORIES)
    (hops : ∀ a now, Op.add a now ∈ ops → a.category ∈ CATEGORIES) :
    ∀ s ∈ (runOps db ops).apps, s.app.category ∈ CATEGORIES := by
  induction ops generalizing db with
  | nil => exact hdb
  | cons op rest ih =>
      show ∀ s ∈ (runOps (applyOp db op) rest).apps, s.app.category ∈ CATEGORIES
      apply ih (applyOp db op)
      · intro s hs
        cases op with
        | add a now =>
            have hs2 : s ∈ db.apps ++
                [(⟨db.nextId, { a with uploadDate := now }⟩ : StoredApp)] := hs
            rcases List.mem_append.mp hs2 with hmem | hmem
            · exact hdb s hmem
            · have : s = ⟨db.nextId, { a with uploadDate := now }⟩ := by
                simpa using hmem
              rw [this]
              exact hops a now (List.mem_cons_self _ _)
        | delete id =>
            exact hdb s (List.mem_of_mem_filter hs)
      · intro a now ha
        exact hops a now (List.mem_cons_of_mem _ ha)

/-- C9: every record persisted by a trace of store operations whose inputs
respect the type annotation (category a member of `CATEGORIES`, the only
guard the code has) carries a category in the fixed enumeration — no
operation persists any other value. -/
theorem persisted_categories_in_enumeration (ops : List Op)
    (hops : ∀ a now, Op.add a now ∈ ops → a.category ∈ CATEGORIES) :
    ∀ s ∈ (runOps initialDB ops).apps, s.app.category ∈ CATEGORIES :=
  runOps_category_closed ops initialDB (by intro s hs; cases hs) hops

theorem persisted_categories_in_enumeration_witness :
    (⟨1, { sampleApp with uploadDate := "2024-03-05T00:00:00.000Z" }⟩
      : StoredApp).app.category ∈ CATEGORIES :=
  persisted_categories_in_enumeration
    [Op.add sampleApp "2024-03-05T00:00:00.000Z"]
    (by
      intro a now h
      have heq := List.mem_singleton.mp h
      injection heq with h1 h2
      rw [h1]
      decide)
    _ (by decide)

theorem getDB_cache_none_after_err {H : Type}
    (cache : Option (OpenOutcome H)) (res : OpenOutcome H) (e : String)
    (he : (getDB cache res).2 = OpenOutcome.err e) :
    (getDB cache res).1 = none := by
  cases cache with
  | none => cases res <;> simp_all [getDB, initDB]
  | some r => cases r <;> simp_all [getDB, initDB]

/-- C10: when the open fails, `getDB` resets the cached `dbPromise` to
`null` before rethrowing, so the rejection is never left cached and the next
call attempts a fresh initialization — which succeeds as soon as the open
does. -/
theorem getDB_resets_cache_on_failure {H : Type}
    (cache : Option (OpenOutcome H)) (res : OpenOutcome H) :
    (∀ e, (getDB cache res).2 = OpenOutcome.err e → (getDB cache res).1 = none) ∧
    (∀ e h, (getDB cache res).2 = OpenOutcome.err e →
      getDB (getDB cache res).1 (OpenOutcome.ok h) =
        (some (OpenOutcome.ok h), OpenOutcome.ok h)) := by
  constructor
  · intro e he
    exact getDB_cache_none_after_err cache res e he
  · intro e h he
    rw [getDB_cache_none_after_err cache res e he]
    rfl

theorem getDB_resets_cache_on_failure_witness :
    (getDB (none : Option (OpenOutcome Nat)) (OpenOutcome.err "open failed")).1
      = none ∧
    getDB (getDB (none : Option (OpenOutcome Nat))
        (OpenOutcome.err "open failed")).1 (OpenOutcome.ok 0) =
      (some (OpenOutcome.ok 0), OpenOutcome.ok 0) :=
  ⟨(getDB_resets_cache_on_failure none (OpenOutcome.err "open failed")).1
      "open failed" rfl,
   (getDB_resets_cache_on_failure none (OpenOutcome.err "open failed")).2
      "open failed" 0 rfl⟩
